import Mathlib

/-!
Formal model of the pimdb repository's `pimdb/common.py`.

The two components modelled here are:

* `GzippedTsvReader.column_names_to_value_maps` — a generator that opens a
  gzipped TSV file, parses it with `csv.DictReader(delimiter="\t",
  quoting=csv.QUOTE_NONE, strict=True)`, deduplicates rows by a composite key
  and reports progress;
* `LastModifiedMap` / `download_imdb_dataset` — a persisted URL-to-token cache
  and the conditional downloader built on it.

The embedding works on decoded text: a file is a list of lines, a line is a
list of characters (`Str`).  I/O effects (the bytes written to the target
file, the persisted cache file, progress callback invocations) are made
explicit as data in the result structures.  Time is abstracted by an oracle
list of booleans `timer`, one entry per data row, saying whether the
"more than `seconds_between_progress_update` elapsed" test fires on that row.
-/

namespace Pimdb

/-- Decoded text, Python `str`. -/
abbrev Str := List Char

/-- A value stored in the dict produced by `csv.DictReader` for one row:
a parsed cell (`str`), the `restval` sentinel `None` used to pad short rows,
or the list of extra cells stored under `restkey` for long rows. -/
inductive PyVal where
  | str (s : Str)
  | null
  | strList (l : List Str)
deriving DecidableEq, Repr

/-- A Python dict with `Optional[str]` keys (the `None` key is `restkey`),
modelled as an association list in insertion order with unique keys. -/
abbrev Record := List (Option Str × PyVal)

/-- `d[k] = v` on a Python dict: replace the value if the key is present,
otherwise append the new key at the end (insertion order). -/
def assocSet (d : Record) (k : Option Str) (v : PyVal) : Record :=
  if d.any (fun p => decide (p.1 = k)) then
    d.map (fun p => if p.1 = k then (p.1, v) else p)
  else d ++ [(k, v)]

/-- `d.get(k)` / `d[k]` lookup on a Python dict. -/
def dictGet (d : Record) (k : Option Str) : Option PyVal :=
  (d.find? (fun p => decide (p.1 = k))).map (fun p => p.2)

/-- One parsed csv record, `csv.DictReader.__next__`:
`d = dict(zip(self.fieldnames, row))`, then short rows are padded with
`restval = None` and the extra cells of long rows go to `d[restkey]`
(`restkey = None`).  No error is raised for a field-count mismatch. -/
def makeRecord (fieldnames row : List Str) : Record :=
  let zipped := (List.zip fieldnames row).foldl
    (fun d p => assocSet d (some p.1) (PyVal.str p.2)) []
  if row.length < fieldnames.length then
    (fieldnames.drop row.length).foldl (fun d c => assocSet d (some c) PyVal.null) zipped
  else if fieldnames.length < row.length then
    assocSet zipped none (PyVal.strList (row.drop fieldnames.length))
  else zipped

/-- Result of evaluating `tuple(result[key_column] for key_column in key_columns)`:
either the tuple of values, or the first key column missing from the dict
(Python raises `KeyError` there). -/
inductive KeyResult where
  | ok (k : List PyVal)
  | keyError (c : Str)
deriving DecidableEq, Repr

def extractKey (keyColumns : List Str) (r : Record) : KeyResult :=
  match keyColumns with
  | [] => .ok []
  | c :: cs =>
    match dictGet r (some c) with
    | none => .keyError c
    | some v =>
      match extractKey cs r with
      | .ok ks => .ok (v :: ks)
      | .keyError e => .keyError e

/-- Result of the low-level csv reader on one line. -/
inductive LineResult where
  | err
  | row (cells : List Str)
deriving DecidableEq, Repr

/-- Tab splitting: `QUOTE_NONE` makes the quote character ordinary, so a
record is the line split at tab characters. -/
def splitTabAux : List Char → List Char → List Str
  | [], acc => [acc.reverse]
  | c :: rest, acc =>
    if c = Char.ofNat 9 then acc.reverse :: splitTabAux rest []
    else splitTabAux rest (c :: acc)

/-- The csv module's parse of one line with `delimiter="\t"` and
`quoting=csv.QUOTE_NONE`: a NUL character raises `_csv.Error`
("line contains NUL"), a blank line parses to the empty record `[]`,
any other line is split at tabs. -/
def parseLine (l : Str) : LineResult :=
  if l.contains (Char.ofNat 0) then .err
  else if l = [] then .row []
  else .row (splitTabAux l [])

/-- The errors that can escape the generator body: `PimdbTsvError` (built
from the path and `self.row_number` when a `csv.Error` is caught) or a
`KeyError` on a key column absent from the parsed record (not caught). -/
inductive ReadError where
  | tsv (path : Str) (rowNumber : Nat)
  | keyError (c : Str)
deriving DecidableEq, Repr

/-- State and outputs of the `for result in tsv_reader` loop. -/
structure LoopOut where
  yielded : List Record
  progress : List (Nat × Nat)
  rowNum : Nat
  dup : Nat
  error : Option ReadError
deriving DecidableEq, Repr

namespace GzippedTsvReader

/-- The `for result in tsv_reader:` loop of `column_names_to_value_maps`,
one step per input line.  `csv.DictReader.__next__` skips blank rows
(`while row == []`), so a blank line consumes no loop iteration and no
timer entry.  `seen` is the `existing_keys` set (membership-only, modelled
as a list), `timer` the oracle for the progress-interval test. -/
def runLoop (keyCols fieldnames : List Str) (path : Str) (hp : Bool) :
    List Str → List Bool → List (List PyVal) → Nat → Nat → LoopOut
  | [], _, _, rowNum, dup => ⟨[], [], rowNum, dup, none⟩
  | l :: rest, timer, seen, rowNum, dup =>
    match parseLine l with
    | .err => ⟨[], [], rowNum, dup, some (.tsv path rowNum)⟩
    | .row [] => runLoop keyCols fieldnames path hp rest timer seen rowNum dup
    | .row (c :: cs) =>
      let result := makeRecord fieldnames (c :: cs)
      let rowNum' := rowNum + 1
      match extractKey keyCols result with
      | .keyError col => ⟨[], [], rowNum', dup, some (.keyError col)⟩
      | .ok key =>
        if key ∈ seen then
          let dup' := dup + 1
          let progHere := if hp && timer.headD false then [(rowNum', dup')] else []
          let r := runLoop keyCols fieldnames path hp rest timer.tail seen rowNum' dup'
          ⟨r.yielded, progHere ++ r.progress, r.rowNum, r.dup, r.error⟩
        else
          let progHere := if hp && timer.headD false then [(rowNum', dup)] else []
          let r := runLoop keyCols fieldnames path hp rest timer.tail (key :: seen) rowNum' dup
          ⟨result :: r.yielded, progHere ++ r.progress, r.rowNum, r.dup, r.error⟩

/-- Observable outcome of one read pass: the yielded records, the arguments
of every `indicate_progress` call, the final `_row_number` and
`_duplicate_count` fields and the error that escaped, if any. -/
structure ReadOutcome where
  yielded : List Record
  progressCalls : List (Nat × Nat)
  rowNumber : Option Nat
  duplicateCount : Option Nat
  error : Option ReadError
deriving DecidableEq, Repr

/-- `GzippedTsvReader.column_names_to_value_maps`, run to completion on a
decoded file (`lines`, the first being the header row).  The body sets
`_duplicate_count = 0` and `_row_number = 0`, runs the loop, and afterwards
re-invokes the progress callback when
`self._duplicate_count != last_progress_row_number` — a variable that is
initialised to `None` and never reassigned, so the test holds whenever the
loop finished without a `csv.Error`.  An empty file makes
`DictReader.fieldnames` `None` and the loop body never runs. -/
def column_names_to_value_maps (path : Str) (keyCols : List Str) (hp : Bool)
    (timer : List Bool) : List Str → ReadOutcome
  | [] => ⟨[], if hp then [(0, 0)] else [], some 0, some 0, none⟩
  | headerLine :: dataLines =>
    match parseLine headerLine with
    | .err => ⟨[], [], some 0, some 0, some (.tsv path 0)⟩
    | .row fieldnames =>
      let r := runLoop keyCols fieldnames path hp dataLines timer [] 0 0
      match r.error with
      | some e => ⟨r.yielded, r.progress, some r.rowNum, some r.dup, some e⟩
      | none =>
        let lastProgressRowNumber : Option Nat := none
        let finalProg :=
          if decide (some r.dup ≠ lastProgressRowNumber) && hp then [(r.rowNum, r.dup)] else []
        ⟨r.yielded, r.progress ++ finalProg, some r.rowNum, some r.dup, none⟩

end GzippedTsvReader

/-! ## Conditional download: `LastModifiedMap` and `download_imdb_dataset` -/

/-- `ImdbDataset`, the enum of the six IMDb dataset names. -/
inductive ImdbDataset where
  | name_basics
  | title_akas
  | title_basics
  | title_crew
  | title_principals
  | title_ratings
deriving DecidableEq, Repr

def ImdbDataset.value : ImdbDataset → Str
  | .name_basics => "name.basics".toList
  | .title_akas => "title.akas".toList
  | .title_basics => "title.basics".toList
  | .title_crew => "title.crew".toList
  | .title_principals => "title.principals".toList
  | .title_ratings => "title.ratings".toList

/-- `ImdbDataset.filename`. -/
def ImdbDataset.filename (d : ImdbDataset) : Str := d.value ++ ".tsv.gz".toList

/-- `source_url` computed at the top of `download_imdb_dataset`. -/
def sourceUrl (d : ImdbDataset) : Str :=
  "https://datasets.imdbws.com/".toList ++ d.filename

/-- What `json.load` yields for the persisted cache file: the file may be
absent (`FileNotFoundError`), its content may make `json.load` raise, it may
parse to a JSON object (a URL-to-token map whose values may be `null`,
since `update` can store the `None` token), or it may parse to some other
JSON value (array, string, number, ...), which `json.load` returns as-is. -/
inductive CacheFile where
  | absent
  | unparseable
  | parsedMap (m : List (Str × Option Str))
  | parsedOther
deriving DecidableEq, Repr

/-- The in-memory `_url_to_last_modified_map`: a dict, or the non-dict value
a well-formed-JSON-but-not-an-object cache file loads to. -/
inductive MapState where
  | dict (m : List (Str × Option Str))
  | nonDict
deriving DecidableEq, Repr

/-- Python `dict.get` on the url-to-token map (absent key gives `None`,
which coincides with a stored `None` value, exactly as in the source). -/
def dictLookup (m : List (Str × Option Str)) (url : Str) : Option (Option Str) :=
  (m.find? (fun p => decide (p.1 = url))).map (fun p => p.2)

/-- Python dict assignment `m[url] = tok`. -/
def dictSet (m : List (Str × Option Str)) (url : Str) (tok : Option Str) :
    List (Str × Option Str) :=
  if m.any (fun p => decide (p.1 = url)) then
    m.map (fun p => if p.1 = url then (p.1, tok) else p)
  else m ++ [(url, tok)]

namespace LastModifiedMap

/-- `LastModifiedMap.__init__`: start from `{}`; a `FileNotFoundError` and
any other exception from `open`/`json.load` are caught (only logged), so
construction never propagates an error; a successfully parsed JSON value
replaces the dict wholesale, even when it is not an object. -/
def init : CacheFile → MapState
  | .absent => .dict []
  | .unparseable => .dict []
  | .parsedMap m => .dict m
  | .parsedOther => .nonDict

/-- `LastModifiedMap.is_modified`: `previous = map.get(url)` then
`current != previous`.  On a non-dict map, `.get` raises `AttributeError`,
modelled as `none`. -/
def is_modified (s : MapState) (url : Str) (current : Option Str) : Option Bool :=
  match s with
  | .nonDict => none
  | .dict m =>
    let previous : Option Str := (dictLookup m url).join
    some (decide (current ≠ previous))

/-- `LastModifiedMap.update`: in-memory dict assignment only.  The non-dict
case is unreachable in `download_imdb_dataset` because `is_modified` raises
first on a non-dict map. -/
def update (s : MapState) (url : Str) (tok : Option Str) : MapState :=
  match s with
  | .dict m => .dict (dictSet m url tok)
  | .nonDict => .nonDict

/-- `LastModifiedMap.write`: `json.dump` the in-memory value over the cache
file; dumping a non-dict would persist a non-object JSON value. -/
def write : MapState → CacheFile
  | .dict m => .parsedMap m
  | .nonDict => .parsedOther

end LastModifiedMap

/-- The parts of the streamed `requests` response the function consults:
`response.raise_for_status()` looks at `ok`, the conditional logic at the
`last-modified` header, and the body is iterated as chunks of bytes. -/
structure Response where
  ok : Bool
  lastModified : Option Str
  contentLength : Option Str
  chunks : List (List Nat)
deriving DecidableEq, Repr

/-- Failures that can escape `download_imdb_dataset`: the `HTTPError` from
`raise_for_status`, or the `AttributeError` from calling `.get` on a cache
that loaded as a non-dict JSON value. -/
inductive DlError where
  | httpError
  | attrError
deriving DecidableEq, Repr

/-- Observable outcome of one `download_imdb_dataset` call: the error that
escaped (if any), the target file content afterwards, the persisted cache
file afterwards, and the in-memory `LastModifiedMap` (present only when
`only_if_newer` was true, since the map is constructed before the request). -/
structure DlOutcome where
  error : Option DlError
  targetFile : Option (List Nat)
  cacheFile : CacheFile
  memMap : Option MapState
deriving DecidableEq, Repr

/-- `download_imdb_dataset(imdb_dataset, target_path, only_if_newer)`.
`targetFile0` and `cacheFile0` are the pre-call contents of the target file
and of `.pimdb_last_modified.json`.  The map is loaded before the request;
`raise_for_status` runs before the freshness check; when the download is
skipped nothing is written; when it proceeds the non-empty body chunks are
written to the target and, if `only_if_newer`, the map is updated with the
current header token and persisted. -/
def download_imdb_dataset (d : ImdbDataset) (only_if_newer : Bool)
    (response : Response) (targetFile0 : Option (List Nat)) (cacheFile0 : CacheFile) :
    DlOutcome :=
  let url := sourceUrl d
  let lastModifiedMap : Option MapState :=
    if only_if_newer then some (LastModifiedMap.init cacheFile0) else none
  if response.ok then
    let hasToBeDownloaded : Option Bool :=
      if only_if_newer then
        LastModifiedMap.is_modified (LastModifiedMap.init cacheFile0) url response.lastModified
      else some true
    match hasToBeDownloaded with
    | none => ⟨some .attrError, targetFile0, cacheFile0, lastModifiedMap⟩
    | some false => ⟨none, targetFile0, cacheFile0, lastModifiedMap⟩
    | some true =>
      let written : List Nat := (response.chunks.filter (fun c => !c.isEmpty)).flatten
      if only_if_newer then
        let m1 := LastModifiedMap.update (LastModifiedMap.init cacheFile0) url response.lastModified
        ⟨none, some written, LastModifiedMap.write m1, some m1⟩
      else ⟨none, some written, cacheFile0, none⟩
  else ⟨some .httpError, targetFile0, cacheFile0, lastModifiedMap⟩

/-! ## Derived notions used in statements and proofs -/

/-- The composite key `csv.DictReader` plus the key-column tuple extraction
produce for one input line, `none` when the line itself fails the csv parse. -/
def lineKey (keyCols fieldnames : List Str) (l : Str) : Option KeyResult :=
  match parseLine l with
  | .err => none
  | .row cells => some (extractKey keyCols (makeRecord fieldnames cells))

/-- The record `csv.DictReader` builds from one input line (the empty dict
for a line the csv parse rejects; only used where the parse succeeds). -/
def recordOfLine (fieldnames : List Str) (l : Str) : Record :=
  match parseLine l with
  | .err => []
  | .row cells => makeRecord fieldnames cells

/-- A data line the loop can consume without raising: it parses, is not
blank, and its key columns are all present in the resulting record. -/
def processableLine (keyCols fieldnames : List Str) (l : Str) : Bool :=
  match parseLine l with
  | .err => false
  | .row cells =>
    !cells.isEmpty &&
      (match extractKey keyCols (makeRecord fieldnames cells) with
       | .ok _ => true
       | .keyError _ => false)

/-- A well-formed data line: additionally its field count matches the header. -/
def goodLine (keyCols fieldnames : List Str) (l : Str) : Bool :=
  match parseLine l with
  | .err => false
  | .row cells =>
    !cells.isEmpty && cells.length == fieldnames.length &&
      (match extractKey keyCols (makeRecord fieldnames cells) with
       | .ok _ => true
       | .keyError _ => false)

/-- The mutable counters of a `GzippedTsvReader` object: `__init__` sets
both `self._row_number` and `self._duplicate_count` to `None`; the generator
body sets them to 0 when it starts executing (on the first pull). -/
structure ReaderFields where
  _row_number : Option Nat
  _duplicate_count : Option Nat
deriving DecidableEq, Repr

/-- The object state right after `GzippedTsvReader.__init__`. -/
def GzippedTsvReader.initFields : ReaderFields := ⟨none, none⟩

/-- The `row_number` property: `assert self._row_number is not None`, then
return the value; `none` models the `AssertionError` escaping. -/
def GzippedTsvReader.row_number (s : ReaderFields) : Option Nat := s._row_number

/-- The `duplicate_count` property: returns `self._duplicate_count` with no
assertion, so the `None` sentinel is returned as-is before a pass starts. -/
def GzippedTsvReader.duplicate_count (s : ReaderFields) : Option Nat := s._duplicate_count

/-- `os.path.basename` on a POSIX path. -/
def basename (p : Str) : Str :=
  (p.reverse.takeWhile (fun c => decide (c ≠ '/'))).reverse

/-- The `location` property: it evaluates `self.row_number` — whose
assertion fires before the `is not None` test can ever see a `None` — so
the assertion failure propagates out of `location` too. -/
def GzippedTsvReader.location (path : Str) (s : ReaderFields) : Option Str :=
  match GzippedTsvReader.row_number s with
  | none => none
  | some n => some (basename path ++ " (".toList ++ Nat.toDigits 10 n ++ ")".toList)

namespace GzippedTsvReader

theorem goodLine_processable {keyCols fieldnames : List Str} {l : Str}
    (h : goodLine keyCols fieldnames l = true) :
    processableLine keyCols fieldnames l = true := by
  unfold goodLine at h
  unfold processableLine
  cases hp : parseLine l with
  | err => rw [hp] at h; exact absurd h (by simp)
  | row cells =>
    rw [hp] at h
    simp only [Bool.and_eq_true] at h ⊢
    exact ⟨h.1.1, h.2⟩

/-- On processable lines the loop never errors and counts every line. -/
theorem runLoop_count (keyCols fieldnames : List Str) (path : Str) (hp : Bool) :
    ∀ (lines : List Str) (timer : List Bool) (seen : List (List PyVal)) (rowNum dup : Nat),
    (∀ l ∈ lines, processableLine keyCols fieldnames l = true) →
    (runLoop keyCols fieldnames path hp lines timer seen rowNum dup).error = none ∧
    (runLoop keyCols fieldnames path hp lines timer seen rowNum dup).rowNum =
      rowNum + lines.length := by
  intro lines
  induction lines with
  | nil => intro timer seen rowNum dup _; simp [runLoop]
  | cons l rest ih =>
    intro timer seen rowNum dup hproc
    have hl : processableLine keyCols fieldnames l = true := hproc l (by simp)
    have hrest : ∀ x ∈ rest, processableLine keyCols fieldnames x = true := by
      intro x hx; exact hproc x (by simp [hx])
    unfold processableLine at hl
    cases hparse : parseLine l with
    | err => rw [hparse] at hl; exact absurd hl (by simp)
    | row cells =>
      rw [hparse] at hl
      simp only [Bool.and_eq_true] at hl
      obtain ⟨hne, hkey⟩ := hl
      cases cells with
      | nil => exact absurd hne (by simp [List.isEmpty])
      | cons c cs =>
        cases hk : extractKey keyCols (makeRecord fieldnames (c :: cs)) with
        | keyError col => rw [hk] at hkey; exact absurd hkey (by simp)
        | ok key =>
          by_cases hmem : key ∈ seen
          · have := ih timer.tail seen (rowNum + 1) (dup + 1) hrest
            simp only [runLoop, hparse, hk, if_pos hmem]
            refine ⟨this.1, ?_⟩
            rw [this.2]; simp; omega
          · have := ih timer.tail (key :: seen) (rowNum + 1) dup hrest
            simp only [runLoop, hparse, hk, if_neg hmem]
            refine ⟨this.1, ?_⟩
            rw [this.2]; simp; omega

theorem card_insert_sdiff {α : Type} [DecidableEq α] (a : α) (X S : Finset α)
    (ha : a ∉ S) : ((insert a X) \ S).card = (X \ insert a S).card + 1 := by
  have h1 : (insert a X) \ S = insert a (X \ S) := by
    ext x
    simp only [Finset.mem_sdiff, Finset.mem_insert]
    constructor
    · rintro ⟨h | h, hs⟩
      · exact Or.inl h
      · exact Or.inr ⟨h, hs⟩
    · rintro (rfl | ⟨hx, hs⟩)
      · exact ⟨Or.inl rfl, ha⟩
      · exact ⟨Or.inr hx, hs⟩
  have h2 : X \ insert a S = (X \ S).erase a := by
    ext x
    simp only [Finset.mem_sdiff, Finset.mem_insert, Finset.mem_erase]
    constructor
    · intro h
      exact ⟨fun he => h.2 (Or.inl he), h.1, fun hs => h.2 (Or.inr hs)⟩
    · intro h
      exact ⟨h.2.1, fun hc => hc.elim h.1 h.2.2⟩
  rw [h1, h2]
  by_cases hm : a ∈ X \ S
  · rw [Finset.insert_eq_self.mpr hm]
    exact (Finset.card_erase_add_one hm).symm
  · rw [Finset.card_insert_of_not_mem hm, Finset.erase_eq_of_not_mem hm]

/-- Duplicate counting: across the loop, the duplicate counter grows by the
number of consumed rows minus the number of keys that were new for `seen`. -/
theorem runLoop_dup (keyCols fieldnames : List Str) (path : Str) (hp : Bool) :
    ∀ (lines : List Str) (keys : List (List PyVal)) (timer : List Bool)
      (seen : List (List PyVal)) (rowNum dup : Nat),
    lines.map (lineKey keyCols fieldnames) = keys.map (fun k => some (KeyResult.ok k)) →
    (∀ l ∈ lines, processableLine keyCols fieldnames l = true) →
    (runLoop keyCols fieldnames path hp lines timer seen rowNum dup).dup +
      (keys.toFinset \ seen.toFinset).card = dup + lines.length := by
  intro lines
  induction lines with
  | nil =>
    intro keys timer seen rowNum dup hmap _
    have : keys = [] := List.map_eq_nil_iff.mp hmap.symm
    subst this
    simp [runLoop]
  | cons l rest ih =>
    intro keys timer seen rowNum dup hmap hproc
    cases keys with
    | nil => exact absurd hmap (by simp)
    | cons kh kt =>
      simp only [List.map_cons, List.cons.injEq] at hmap
      obtain ⟨hhead, htail⟩ := hmap
      have hl : processableLine keyCols fieldnames l = true := hproc l (by simp)
      have hrest : ∀ x ∈ rest, processableLine keyCols fieldnames x = true := by
        intro x hx; exact hproc x (by simp [hx])
      unfold processableLine at hl
      unfold lineKey at hhead
      cases hparse : parseLine l with
      | err => rw [hparse] at hl; exact absurd hl (by simp)
      | row cells =>
        rw [hparse] at hl hhead
        simp only [Option.some.injEq] at hhead
        simp only [Bool.and_eq_true] at hl
        obtain ⟨hne, _⟩ := hl
        cases cells with
        | nil => exact absurd hne (by simp [List.isEmpty])
        | cons c cs =>
          by_cases hmem : kh ∈ seen
          · have hih := ih kt timer.tail seen (rowNum + 1) (dup + 1) htail hrest
            simp only [runLoop, hparse, hhead, if_pos hmem]
            rw [List.toFinset_cons,
              Finset.insert_sdiff_of_mem _ (List.mem_toFinset.mpr hmem)]
            simp only [List.length_cons]
            omega
          · have hih := ih kt timer.tail (kh :: seen) (rowNum + 1) dup htail hrest
            simp only [runLoop, hparse, hhead, if_neg hmem]
            rw [List.toFinset_cons,
              card_insert_sdiff kh _ _ (fun hc => hmem (List.mem_toFinset.mp hc))]
            rw [List.toFinset_cons] at hih
            simp only [List.length_cons]
            omega

/-- First-occurrence deduplication: among the yielded records, those whose
composite key is `k` are exactly the record of the first input line whose
key is `k` — provided `k` is new for `seen` — and nothing otherwise. -/
theorem runLoop_filter (keyCols fieldnames : List Str) (path : Str) (hp : Bool) :
    ∀ (lines : List Str) (keys : List (List PyVal)) (timer : List Bool)
      (seen : List (List PyVal)) (rowNum dup : Nat),
    lines.map (lineKey keyCols fieldnames) = keys.map (fun k => some (KeyResult.ok k)) →
    (∀ l ∈ lines, processableLine keyCols fieldnames l = true) →
    ∀ k : List PyVal,
    ((runLoop keyCols fieldnames path hp lines timer seen rowNum dup).yielded).filter
        (fun r => decide (extractKey keyCols r = KeyResult.ok k)) =
      (if k ∈ seen then []
       else
         match (lines.zip keys).find? (fun p => decide (p.2 = k)) with
         | some p => [recordOfLine fieldnames p.1]
         | none => []) := by
  intro lines
  induction lines with
  | nil =>
    intro keys timer seen rowNum dup hmap _ k
    have : keys = [] := List.map_eq_nil_iff.mp hmap.symm
    subst this
    simp [runLoop]
  | cons l rest ih =>
    intro keys timer seen rowNum dup hmap hproc k
    cases keys with
    | nil => exact absurd hmap (by simp)
    | cons kh kt =>
      simp only [List.map_cons, List.cons.injEq] at hmap
      obtain ⟨hhead, htail⟩ := hmap
      have hl : processableLine keyCols fieldnames l = true := hproc l (by simp)
      have hrest : ∀ x ∈ rest, processableLine keyCols fieldnames x = true := by
        intro x hx; exact hproc x (by simp [hx])
      unfold processableLine at hl
      unfold lineKey at hhead
      cases hparse : parseLine l with
      | err => rw [hparse] at hl; exact absurd hl (by simp)
      | row cells =>
        rw [hparse] at hl hhead
        simp only [Option.some.injEq] at hhead
        simp only [Bool.and_eq_true] at hl
        obtain ⟨hne, _⟩ := hl
        cases cells with
        | nil => exact absurd hne (by simp [List.isEmpty])
        | cons c cs =>
          have hrec : recordOfLine fieldnames l = makeRecord fieldnames (c :: cs) := by
            unfold recordOfLine; rw [hparse]
          by_cases hmem : kh ∈ seen
          · simp only [runLoop, hparse, hhead, if_pos hmem]
            rw [ih kt timer.tail seen (rowNum + 1) (dup + 1) htail hrest k]
            by_cases hk : k ∈ seen
            · rw [if_pos hk, if_pos hk]
            · have hkkh : kh ≠ k := fun he => hk (he ▸ hmem)
              rw [if_neg hk, if_neg hk, List.zip_cons_cons,
                List.find?_cons_of_neg _ (by simpa using hkkh)]
          · simp only [runLoop, hparse, hhead, if_neg hmem]
            rw [List.filter_cons]
            by_cases hk : k ∈ seen
            · have hkkh : kh ≠ k := fun he => hmem (he ▸ hk)
              rw [if_neg (by simp [hhead, hkkh]),
                ih kt timer.tail (kh :: seen) (rowNum + 1) dup htail hrest k,
                if_pos (by simp [hk] : k ∈ kh :: seen), if_pos hk]
            · by_cases hkk : kh = k
              · subst hkk
                rw [if_pos (by simp [hhead]),
                  ih kt timer.tail (kh :: seen) (rowNum + 1) dup htail hrest kh,
                  if_pos (by simp : kh ∈ kh :: seen), if_neg hk, List.zip_cons_cons,
                  List.find?_cons_of_pos _ (by simp)]
                simp [hrec]
              · have hkk' : k ≠ kh := fun he => hkk he.symm
                rw [if_neg (by simp [hhead, hkk]),
                  ih kt timer.tail (kh :: seen) (rowNum + 1) dup htail hrest k,
                  if_neg (by simp [hkk', hk] : ¬ k ∈ kh :: seen), if_neg hk,
                  List.zip_cons_cons, List.find?_cons_of_neg _ (by simpa using hkk)]

end GzippedTsvReader

/-- Assigning a token for `url` makes the subsequent lookup of `url` return
exactly that token. -/
theorem dictLookup_dictSet_self (m : List (Str × Option Str)) (url : Str)
    (tok : Option Str) : dictLookup (dictSet m url tok) url = some tok := by
  induction m with
  | nil =>
    simp [dictSet, dictLookup, List.find?]
  | cons p rest ih =>
    by_cases hp : p.1 = url
    · rw [dictSet, if_pos (by simp [List.any_cons, hp])]
      simp [dictLookup, List.find?_cons, hp]
    · by_cases hr : rest.any (fun q => decide (q.1 = url)) = true
      · rw [dictSet, if_pos (by simp [List.any_cons, hr])]
        have ihr := ih
        rw [dictSet, if_pos hr] at ihr
        simp only [List.map_cons, if_neg hp]
        rw [dictLookup, List.find?_cons_of_neg _ (by simpa using hp)]
        exact ihr
      · rw [dictSet, if_neg (by simp [List.any_cons, hp]; simpa using hr)]
        have hnone : (p :: rest).find? (fun q => decide (q.1 = url)) = none := by
          rw [List.find?_eq_none]
          intro x hx
          rcases List.mem_cons.mp hx with rfl | hxr
          · simpa using hp
          · intro hc
            exact hr (List.any_eq_true.mpr ⟨x, hxr, hc⟩)
        rw [dictLookup, List.find?_append, hnone]
        simp [List.find?]

/-! ## Claims -/

/-- C2: with `only_if_newer = true` and token `T0` stored for the dataset's
URL, a response advertising `T0` writes nothing: no error, target file,
persisted cache and in-memory map all unchanged; a response advertising any
`T1 ≠ T0` triggers the download (the non-empty body chunks are written to
the target) and the stored token for the URL becomes `T1`. -/
theorem spec_c2 (d : ImdbDataset) (m : List (Str × Option Str)) (T0 T1 : Str)
    (cl : Option Str) (chunks : List (List Nat)) (tf0 : Option (List Nat))
    (hstore : dictLookup m (sourceUrl d) = some (some T0)) (hne : T1 ≠ T0) :
    download_imdb_dataset d true ⟨true, some T0, cl, chunks⟩ tf0 (.parsedMap m) =
      ⟨none, tf0, .parsedMap m, some (.dict m)⟩ ∧
    (download_imdb_dataset d true ⟨true, some T1, cl, chunks⟩ tf0 (.parsedMap m)).error =
      none ∧
    (download_imdb_dataset d true ⟨true, some T1, cl, chunks⟩ tf0 (.parsedMap m)).targetFile =
      some ((chunks.filter (fun c => !c.isEmpty)).flatten) ∧
    ∃ m',
      (download_imdb_dataset d true ⟨true, some T1, cl, chunks⟩ tf0
          (.parsedMap m)).cacheFile = CacheFile.parsedMap m' ∧
      dictLookup m' (sourceUrl d) = some (some T1) := by
  have hmod0 : LastModifiedMap.is_modified (.dict m) (sourceUrl d) (some T0) = some false := by
    simp [LastModifiedMap.is_modified, hstore, Option.join]
  have hmod1 : LastModifiedMap.is_modified (.dict m) (sourceUrl d) (some T1) = some true := by
    simp [LastModifiedMap.is_modified, hstore, Option.join, hne]
  refine ⟨?_, ?_, ?_, dictSet m (sourceUrl d) (some T1), ?_, ?_⟩
  · simp [download_imdb_dataset, LastModifiedMap.init, hmod0]
  · simp [download_imdb_dataset, LastModifiedMap.init, hmod1]
  · simp [download_imdb_dataset, LastModifiedMap.init, hmod1]
  · simp [download_imdb_dataset, LastModifiedMap.init, hmod1, LastModifiedMap.update,
      LastModifiedMap.write]
  · exact dictLookup_dictSet_self m (sourceUrl d) (some T1)

theorem spec_c2_witness :
    download_imdb_dataset .name_basics true
      ⟨true, some "T0".toList, none, [[1], [], [2]]⟩ (some [9])
      (.parsedMap [(sourceUrl .name_basics, some "T0".toList)]) =
    ⟨none, some [9], .parsedMap [(sourceUrl .name_basics, some "T0".toList)],
      some (.dict [(sourceUrl .name_basics, some "T0".toList)])⟩ ∧
    (download_imdb_dataset .name_basics true
      ⟨true, some "T1".toList, none, [[1], [], [2]]⟩ (some [9])
      (.parsedMap [(sourceUrl .name_basics, some "T0".toList)])).targetFile = some [1, 2] := by
  have h := spec_c2 .name_basics [(sourceUrl .name_basics, some "T0".toList)]
    "T0".toList "T1".toList none [[1], [], [2]] (some [9]) (by decide) (by decide)
  exact ⟨h.1, h.2.2.1.trans (by decide)⟩

/-- C3 counterexample: first fetch of a URL that was never cached (absent
cache file), server response carrying no modification-time header.  The
claim demands a download on this first fetch, but the code compares
`None != None`, gets `False`, and skips: the body `[[1, 2]]` is not written
and the target file stays absent. -/
theorem spec_c3_counterexample :
    download_imdb_dataset .name_basics true ⟨true, none, none, [[1, 2]]⟩ none .absent =
      ⟨none, none, .absent, some (.dict [])⟩ := by decide

/-- C3 amended: a missing modification-time header is compared like any
other token value, not treated as "always different": when nothing is
stored for the URL the missing token equals the never-seen state and the
download is skipped (also on the first fetch); only when a proper token
`T0` is stored does the missing header differ, in which case the body is
downloaded and the stored token becomes the missing marker. -/
theorem spec_c3_amended (d : ImdbDataset) (m : List (Str × Option Str)) (T0 : Str)
    (cl : Option Str) (chunks : List (List Nat)) (tf0 : Option (List Nat)) :
    (dictLookup m (sourceUrl d) = none →
      download_imdb_dataset d true ⟨true, none, cl, chunks⟩ tf0 (.parsedMap m) =
        ⟨none, tf0, .parsedMap m, some (.dict m)⟩) ∧
    (dictLookup m (sourceUrl d) = some (some T0) →
      (download_imdb_dataset d true ⟨true, none, cl, chunks⟩ tf0 (.parsedMap m)).error =
        none ∧
      (download_imdb_dataset d true ⟨true, none, cl, chunks⟩ tf0
          (.parsedMap m)).targetFile =
        some ((chunks.filter (fun c => !c.isEmpty)).flatten) ∧
      ∃ m',
        (download_imdb_dataset d true ⟨true, none, cl, chunks⟩ tf0
            (.parsedMap m)).cacheFile = CacheFile.parsedMap m' ∧
        dictLookup m' (sourceUrl d) = some none) := by
  constructor
  · intro hstore
    have hmod : LastModifiedMap.is_modified (.dict m) (sourceUrl d) none = some false := by
      simp [LastModifiedMap.is_modified, hstore, Option.join]
    simp [download_imdb_dataset, LastModifiedMap.init, hmod]
  · intro hstore
    have hmod : LastModifiedMap.is_modified (.dict m) (sourceUrl d) none = some true := by
      simp [LastModifiedMap.is_modified, hstore, Option.join]
    refine ⟨?_, ?_, dictSet m (sourceUrl d) none, ?_, ?_⟩
    · simp [download_imdb_dataset, LastModifiedMap.init, hmod]
    · simp [download_imdb_dataset, LastModifiedMap.init, hmod]
    · simp [download_imdb_dataset, LastModifiedMap.init, hmod, LastModifiedMap.update,
        LastModifiedMap.write]
    · exact dictLookup_dictSet_self m (sourceUrl d) none

theorem spec_c3_amended_witness :
    download_imdb_dataset .title_akas true ⟨true, none, none, [[5]]⟩ none (.parsedMap []) =
      ⟨none, none, .parsedMap [], some (.dict [])⟩ ∧
    (download_imdb_dataset .title_akas true ⟨true, none, none, [[5]]⟩ none
      (.parsedMap [(sourceUrl .title_akas, some "T0".toList)])).targetFile = some [5] := by
  have h1 := (spec_c3_amended .title_akas [] "T0".toList none [[5]] none).1 (by decide)
  have h2 := ((spec_c3_amended .title_akas [(sourceUrl .title_akas, some "T0".toList)]
    "T0".toList none [[5]] none).2 (by decide)).2.1
  exact ⟨h1, h2.trans (by decide)⟩

/-- C7 counterexample: a cache file holding well-formed JSON that is not the
expected URL-to-token object (e.g. a JSON array) fails to parse as the
expected structured format, yet the resulting cache does not behave like one
loaded from an absent file: `is_modified` raises an `AttributeError`
(modelled `none`) instead of returning true. -/
theorem spec_c7_counterexample :
    LastModifiedMap.is_modified (LastModifiedMap.init .absent) "u".toList
      (some "t".toList) = some true ∧
    LastModifiedMap.is_modified (LastModifiedMap.init .parsedOther) "u".toList
      (some "t".toList) = none := by decide

/-- C7 amended: constructing `LastModifiedMap` never propagates an error
(`init` is total: every load failure is caught).  For a cache file that
json-parsing rejects the cache is the same value as for an absent file, and
`is_modified` returns true for every URL and every string token; but a file
that parses as JSON without being an object is kept as loaded, and
`is_modified` then fails with an `AttributeError` instead of returning
true. -/
theorem spec_c7_amended (url tok : Str) :
    LastModifiedMap.init .unparseable = LastModifiedMap.init .absent ∧
    LastModifiedMap.is_modified (LastModifiedMap.init .unparseable) url (some tok) =
      some true ∧
    LastModifiedMap.is_modified (LastModifiedMap.init .parsedOther) url (some tok) =
      none := by
  refine ⟨rfl, ?_, rfl⟩
  simp [LastModifiedMap.init, LastModifiedMap.is_modified, dictLookup, Option.join,
    List.find?]

/-- C8: a response with a non-success HTTP status makes
`download_imdb_dataset` propagate the `HTTPError` from `raise_for_status`;
the target file, the persisted cache file and the in-memory map (loaded
before the request, when `only_if_newer` asked for one) are all left exactly
as they were. -/
theorem spec_c8 (d : ImdbDataset) (oin : Bool) (lm cl : Option Str)
    (chunks : List (List Nat)) (tf0 : Option (List Nat)) (cf0 : CacheFile) :
    download_imdb_dataset d oin ⟨false, lm, cl, chunks⟩ tf0 cf0 =
      ⟨some .httpError, tf0, cf0,
        if oin then some (LastModifiedMap.init cf0) else none⟩ := by
  cases oin <;> rfl

/-- C1: on a well-formed input the pass completes without error and, for
every composite key `k`, the yielded records whose key is `k` are exactly
one record — the one `csv.DictReader` parsed from the first data line whose
key is `k` — when `k` occurs among the data lines, and none otherwise:
duplicates are suppressed and only first occurrences in file order are
yielded. -/
theorem spec_c1 (path : Str) (keyCols : List Str) (headerLine : Str)
    (dataLines : List Str) (fieldnames : List Str) (keys : List (List PyVal))
    (hp : Bool) (timer : List Bool)
    (hhdr : parseLine headerLine = .row fieldnames)
    (hmap : dataLines.map (lineKey keyCols fieldnames) =
      keys.map (fun k => some (KeyResult.ok k)))
    (hgood : ∀ l ∈ dataLines, goodLine keyCols fieldnames l = true) :
    (GzippedTsvReader.column_names_to_value_maps path keyCols hp timer
      (headerLine :: dataLines)).error = none ∧
    ∀ k : List PyVal,
      ((GzippedTsvReader.column_names_to_value_maps path keyCols hp timer
          (headerLine :: dataLines)).yielded).filter
          (fun r => decide (extractKey keyCols r = KeyResult.ok k)) =
        match (dataLines.zip keys).find? (fun p => decide (p.2 = k)) with
        | some p => [recordOfLine fieldnames p.1]
        | none => [] := by
  have hproc : ∀ l ∈ dataLines, processableLine keyCols fieldnames l = true :=
    fun l hl => GzippedTsvReader.goodLine_processable (hgood l hl)
  have hcount := GzippedTsvReader.runLoop_count keyCols fieldnames path hp dataLines
    timer [] 0 0 hproc
  constructor
  · simp only [GzippedTsvReader.column_names_to_value_maps, hhdr]
    rw [hcount.1]
  · intro k
    have hfil := GzippedTsvReader.runLoop_filter keyCols fieldnames path hp dataLines
      keys timer [] 0 0 hmap hproc k
    rw [if_neg (List.not_mem_nil k)] at hfil
    simp only [GzippedTsvReader.column_names_to_value_maps, hhdr]
    rw [hcount.1]
    exact hfil

theorem spec_c1_witness :
    (GzippedTsvReader.column_names_to_value_maps "f".toList [['a']] false []
      ["a\tb".toList, "x\t1".toList, "x\t2".toList, "y\t3".toList]).error = none ∧
    ((GzippedTsvReader.column_names_to_value_maps "f".toList [['a']] false []
      ["a\tb".toList, "x\t1".toList, "x\t2".toList, "y\t3".toList]).yielded).filter
        (fun r => decide (extractKey [['a']] r = KeyResult.ok [PyVal.str ['x']])) =
      [[(some ['a'], PyVal.str ['x']), (some ['b'], PyVal.str ['1'])]] := by
  have h := spec_c1 "f".toList [['a']] "a\tb".toList
    ["x\t1".toList, "x\t2".toList, "y\t3".toList] [['a'], ['b']]
    [[PyVal.str ['x']], [PyVal.str ['x']], [PyVal.str ['y']]] false []
    (by decide) (by decide) (by decide)
  exact ⟨h.1, (h.2 [PyVal.str ['x']]).trans (by decide)⟩

/-- C4 counterexample: input whose first data row has 1 field and whose
second has 3 fields against a 2-column header.  The claim demands a
`PimdbTsvError` and no yield of the offending rows; the code raises nothing
(`csv.DictReader` pads / collects mismatched rows) and yields both rows. -/
theorem spec_c4_counterexample :
    (GzippedTsvReader.column_names_to_value_maps "movies.tsv.gz".toList [['a']] false []
      ["a\tb".toList, "x".toList, "y\tz\tw".toList]).error = none ∧
    ((GzippedTsvReader.column_names_to_value_maps "movies.tsv.gz".toList [['a']] false []
      ["a\tb".toList, "x".toList, "y\tz\tw".toList]).yielded).length = 2 := by decide

/-- C4 amended: a data row whose field count differs from the header's is
not a structural error: `csv.DictReader` pads missing columns with the
`None` restval and stores extra cells under the `None` restkey, the row is
processed like any other (yielded unless its key is a duplicate), no
`PimdbTsvError` is raised and all later rows are still read — every data
line that parses and whose key columns are present is consumed, whatever
its field count.  (`PimdbTsvError` is reserved for `csv.Error`, e.g. a NUL
character in the input.) -/
theorem spec_c4_amended (path : Str) (keyCols : List Str) (headerLine : Str)
    (dataLines : List Str) (fieldnames : List Str) (hp : Bool) (timer : List Bool)
    (hhdr : parseLine headerLine = .row fieldnames)
    (hproc : ∀ l ∈ dataLines, processableLine keyCols fieldnames l = true) :
    (GzippedTsvReader.column_names_to_value_maps path keyCols hp timer
      (headerLine :: dataLines)).error = none ∧
    (GzippedTsvReader.column_names_to_value_maps path keyCols hp timer
      (headerLine :: dataLines)).rowNumber = some dataLines.length := by
  have hcount := GzippedTsvReader.runLoop_count keyCols fieldnames path hp dataLines
    timer [] 0 0 hproc
  constructor
  · simp only [GzippedTsvReader.column_names_to_value_maps, hhdr]
    rw [hcount.1]
  · simp only [GzippedTsvReader.column_names_to_value_maps, hhdr]
    rw [hcount.1]
    simp only []
    rw [hcount.2]
    simp

theorem spec_c4_amended_witness :
    (GzippedTsvReader.column_names_to_value_maps "t.tsv.gz".toList [['a']] true []
      ["a\tb".toList, "u".toList, "v\tw\tz\tq".toList]).error = none ∧
    (GzippedTsvReader.column_names_to_value_maps "t.tsv.gz".toList [['a']] true []
      ["a\tb".toList, "u".toList, "v\tw\tz\tq".toList]).rowNumber = some 2 :=
  spec_c4_amended "t.tsv.gz".toList [['a']] "a\tb".toList
    ["u".toList, "v\tw\tz\tq".toList] [['a'], ['b']] true [] (by decide) (by decide)

/-- C5: on a well-formed input with the progress callback supplied, the
callback is invoked at least once and its last invocation carries the final
row number and the final duplicate count: the after-loop re-invocation is
effectively unconditional because `last_progress_row_number` stays `None`,
so `self._duplicate_count != last_progress_row_number` always holds. -/
theorem spec_c5 (path : Str) (keyCols : List Str) (headerLine : Str)
    (dataLines : List Str) (fieldnames : List Str) (timer : List Bool)
    (hhdr : parseLine headerLine = .row fieldnames)
    (hproc : ∀ l ∈ dataLines, processableLine keyCols fieldnames l = true) :
    ∃ rn dc,
      (GzippedTsvReader.column_names_to_value_maps path keyCols true timer
        (headerLine :: dataLines)).rowNumber = some rn ∧
      (GzippedTsvReader.column_names_to_value_maps path keyCols true timer
        (headerLine :: dataLines)).duplicateCount = some dc ∧
      (GzippedTsvReader.column_names_to_value_maps path keyCols true timer
        (headerLine :: dataLines)).progressCalls ≠ [] ∧
      (GzippedTsvReader.column_names_to_value_maps path keyCols true timer
        (headerLine :: dataLines)).progressCalls.getLast? = some (rn, dc) := by
  have hcount := GzippedTsvReader.runLoop_count keyCols fieldnames path true dataLines
    timer [] 0 0 hproc
  refine ⟨(GzippedTsvReader.runLoop keyCols fieldnames path true dataLines timer [] 0 0).rowNum,
    (GzippedTsvReader.runLoop keyCols fieldnames path true dataLines timer [] 0 0).dup,
    ?_, ?_, ?_, ?_⟩ <;>
    simp only [GzippedTsvReader.column_names_to_value_maps, hhdr] <;>
    rw [hcount.1] <;>
    simp [List.getLast?_concat]

theorem spec_c5_witness :
    ∃ rn dc,
      (GzippedTsvReader.column_names_to_value_maps "f".toList [['a']] true [true]
        ["a".toList, "p".toList, "p".toList]).rowNumber = some rn ∧
      (GzippedTsvReader.column_names_to_value_maps "f".toList [['a']] true [true]
        ["a".toList, "p".toList, "p".toList]).duplicateCount = some dc ∧
      (GzippedTsvReader.column_names_to_value_maps "f".toList [['a']] true [true]
        ["a".toList, "p".toList, "p".toList]).progressCalls ≠ [] ∧
      (GzippedTsvReader.column_names_to_value_maps "f".toList [['a']] true [true]
        ["a".toList, "p".toList, "p".toList]).progressCalls.getLast? = some (rn, dc) :=
  spec_c5 "f".toList [['a']] "a".toList ["p".toList, "p".toList] [['a']] [true]
    (by decide) (by decide)

/-- C6: after a pass over a well-formed input with `n` data rows is
exhausted, `duplicate_count` equals `n` minus the number of distinct
composite keys among the rows. -/
theorem spec_c6 (path : Str) (keyCols : List Str) (headerLine : Str)
    (dataLines : List Str) (fieldnames : List Str) (keys : List (List PyVal))
    (hp : Bool) (timer : List Bool)
    (hhdr : parseLine headerLine = .row fieldnames)
    (hmap : dataLines.map (lineKey keyCols fieldnames) =
      keys.map (fun k => some (KeyResult.ok k)))
    (hgood : ∀ l ∈ dataLines, goodLine keyCols fieldnames l = true) :
    (GzippedTsvReader.column_names_to_value_maps path keyCols hp timer
      (headerLine :: dataLines)).duplicateCount =
      some (dataLines.length - keys.toFinset.card) := by
  have hproc : ∀ l ∈ dataLines, processableLine keyCols fieldnames l = true :=
    fun l hl => GzippedTsvReader.goodLine_processable (hgood l hl)
  have hcount := GzippedTsvReader.runLoop_count keyCols fieldnames path hp dataLines
    timer [] 0 0 hproc
  have hdup := GzippedTsvReader.runLoop_dup keyCols fieldnames path hp dataLines keys
    timer [] 0 0 hmap hproc
  rw [List.toFinset_nil, Finset.sdiff_empty] at hdup
  simp only [GzippedTsvReader.column_names_to_value_maps, hhdr]
  rw [hcount.1]
  simp only [GzippedTsvReader.ReadOutcome.duplicateCount, Option.some.injEq]
  omega

theorem spec_c6_witness :
    (GzippedTsvReader.column_names_to_value_maps "f".toList [['a']] false []
      ["a\tb".toList, "x\t1".toList, "x\t2".toList, "y\t3".toList,
        "x\t4".toList]).duplicateCount = some 2 := by
  have h := spec_c6 "f".toList [['a']] "a\tb".toList
    ["x\t1".toList, "x\t2".toList, "y\t3".toList, "x\t4".toList] [['a'], ['b']]
    [[PyVal.str ['x']], [PyVal.str ['x']], [PyVal.str ['y']], [PyVal.str ['x']]] false []
    (by decide) (by decide) (by decide)
  exact h.trans (by decide)

/-- C9: the state of the reader part-way through a pass is the state after
consuming a prefix of the data lines; over every prefix the row number is
defined and equals the number of data rows consumed so far (the header is
not counted), hence it is non-decreasing along the pass. -/
theorem spec_c9 (path : Str) (keyCols : List Str) (headerLine : Str)
    (dataLines : List Str) (fieldnames : List Str) (hp : Bool) (timer : List Bool)
    (hhdr : parseLine headerLine = .row fieldnames)
    (hproc : ∀ l ∈ dataLines, processableLine keyCols fieldnames l = true) :
    (∀ k, k ≤ dataLines.length →
      (GzippedTsvReader.column_names_to_value_maps path keyCols hp timer
        (headerLine :: dataLines.take k)).rowNumber = some k) ∧
    (∀ i j, i ≤ j → j ≤ dataLines.length →
      ∃ a b,
        (GzippedTsvReader.column_names_to_value_maps path keyCols hp timer
          (headerLine :: dataLines.take i)).rowNumber = some a ∧
        (GzippedTsvReader.column_names_to_value_maps path keyCols hp timer
          (headerLine :: dataLines.take j)).rowNumber = some b ∧
        a ≤ b) := by
  have hpart : ∀ k, k ≤ dataLines.length →
      (GzippedTsvReader.column_names_to_value_maps path keyCols hp timer
        (headerLine :: dataLines.take k)).rowNumber = some k := by
    intro k hk
    have hprock : ∀ l ∈ dataLines.take k, processableLine keyCols fieldnames l = true :=
      fun l hl => hproc l (List.take_subset k dataLines hl)
    have hcount := GzippedTsvReader.runLoop_count keyCols fieldnames path hp
      (dataLines.take k) timer [] 0 0 hprock
    simp only [GzippedTsvReader.column_names_to_value_maps, hhdr]
    rw [hcount.1]
    simp only []
    rw [hcount.2]
    simp [List.length_take, Nat.min_eq_left hk]
  refine ⟨hpart, fun i j hij hj => ?_⟩
  exact ⟨i, j, hpart i (le_trans hij hj), hpart j hj, hij⟩

theorem spec_c9_witness :
    (GzippedTsvReader.column_names_to_value_maps "f".toList [['a']] false []
      (("a".toList) :: (["p".toList, "q".toList].take 2))).rowNumber = some 2 :=
  (spec_c9 "f".toList [['a']] "a".toList ["p".toList, "q".toList] [['a']] false []
    (by decide) (by decide)).1 2 (by decide)

/-- C10: right after construction `_row_number` and `_duplicate_count` are
`None`: the `row_number` property fails its assertion (modelled `none`) and
`location`, which evaluates it, fails the same way, while `duplicate_count`
returns the `None` sentinel instead of an integer.  Once the generator has
been advanced both counters hold integers at every point of the pass,
starting at 0 when no data row has been consumed. -/
theorem spec_c10 (path : Str) :
    GzippedTsvReader.row_number GzippedTsvReader.initFields = none ∧
    GzippedTsvReader.location path GzippedTsvReader.initFields = none ∧
    GzippedTsvReader.duplicate_count GzippedTsvReader.initFields = none ∧
    (∀ (keyCols : List Str) (hp : Bool) (timer : List Bool) (lines : List Str),
      ((GzippedTsvReader.column_names_to_value_maps path keyCols hp timer
        lines).rowNumber).isSome = true ∧
      ((GzippedTsvReader.column_names_to_value_maps path keyCols hp timer
        lines).duplicateCount).isSome = true) ∧
    (∀ (keyCols : List Str) (hp : Bool) (timer : List Bool) (headerLine : Str),
      (GzippedTsvReader.column_names_to_value_maps path keyCols hp timer
        [headerLine]).rowNumber = some 0 ∧
      (GzippedTsvReader.column_names_to_value_maps path keyCols hp timer
        [headerLine]).duplicateCount = some 0) := by
  refine ⟨rfl, rfl, rfl, ?_, ?_⟩
  · intro keyCols hp timer lines
    cases lines with
    | nil => exact ⟨rfl, rfl⟩
    | cons hd tl =>
      cases hph : parseLine hd with
      | err => simp [GzippedTsvReader.column_names_to_value_maps, hph]
      | row fns =>
        cases herr : (GzippedTsvReader.runLoop keyCols fns path hp tl timer [] 0 0).error with
        | none => simp [GzippedTsvReader.column_names_to_value_maps, hph, herr]
        | some e => simp [GzippedTsvReader.column_names_to_value_maps, hph, herr]
  · intro keyCols hp timer headerLine
    cases hph : parseLine headerLine with
    | err => simp [GzippedTsvReader.column_names_to_value_maps, hph]
    | row fns =>
      simp [GzippedTsvReader.column_names_to_value_maps, GzippedTsvReader.runLoop, hph]

end Pimdb
